import Mathlib

/-!
Shallow embedding of the Market-1501 annotation pipeline
(`src/codes/20200209_person_reid/src/datasets/market1501.py`) and proofs of
its specified properties.

Python strings are modelled as `List Char`; the partition role column as the
enumeration `Mode`; pandas data frames as lists of typed records; the
filesystem and the image decoder as function parameters; raising an
exception as returning `none` / `Except.error`.
-/

/-- Python `str` modelled as a list of characters. -/
abbrev Str := List Char

/-- Python `s.split(c)` for a one-character separator: splits at every
occurrence of `c`, keeps empty pieces, and always returns at least one
piece. -/
def splitOnChar (c : Char) : Str → List Str
  | [] => [[]]
  | x :: xs =>
    match splitOnChar c xs with
    | [] => [[]]
    | t :: ts => if x = c then [] :: t :: ts else (x :: t) :: ts

/-- Python `','.join(fields)` (used with an arbitrary one-character
separator prepended by the caller; here the comma of a CSV line). -/
def joinComma : List Str → Str
  | [] => []
  | [f] => f
  | f :: g :: rest => f ++ ',' :: joinComma (g :: rest)

/-- Concatenates lines, terminating every line (the last one included) with
a newline, as `DataFrame.to_csv` does. -/
def unlinesNl (lines : List Str) : Str :=
  lines.foldr (fun l acc => l ++ '\n' :: acc) []

/-- The partition role stored in the `mode` column: `'train' | 'query' |
'gallery'`. -/
inductive Mode where
  | train
  | query
  | gallery
deriving DecidableEq, Repr

/-- The string value written into the `mode` column for each role. -/
def modeStr : Mode → Str
  | Mode.train => "train".toList
  | Mode.query => "query".toList
  | Mode.gallery => "gallery".toList

/-- One record produced by `__org_data` (lines 53-68 of the source): the
dictionary built for one image file, before any `person_index` exists. -/
structure OrgRecord where
  image_name : Str
  image_path : Str
  person_id : Str
  camera_id : Str
  sequence_id : Str
  frame_no : Str
  dpm_bbox_no : Str
  mode : Mode
deriving DecidableEq, Repr

/-- A record after `__add_person_index` has run: the same columns plus the
integer `person_index` column (sentinel `-999` when unassigned). -/
structure Row extends OrgRecord where
  person_index : Int
deriving DecidableEq, Repr

/-- Body of the `__org_data` loop for a single file name (source lines
56-66).  Python raises `IndexError` exactly when `img_name.split('_')` has
fewer than 4 pieces; this is modelled by returning `none`. -/
def org_one (data_dir : Str) (img_name : Str) (mode : Mode) : Option OrgRecord :=
  let splited := splitOnChar '_' img_name
  if 4 ≤ splited.length then
    some
      { image_name := img_name
        image_path := data_dir ++ img_name
        person_id := splited.getD 0 []
        camera_id := (splited.getD 1 []).take 2
        sequence_id := (splited.getD 1 []).drop 2
        frame_no := splited.getD 2 []
        dpm_bbox_no := (splitOnChar '.' (splited.getD 3 [])).headD []
        mode := mode }
  else none

/-- `__org_data` (source lines 53-68): one record per file name, in input
order; an unparsable name aborts the whole run (`none`). -/
def org_data (data_dir : Str) (img_names : List Str) (mode : Mode) : Option (List OrgRecord) :=
  img_names.mapM (fun n => org_one data_dir n mode)

/-- Extension filter of the listing comprehensions (source lines 23, 40,
41): keep a file when `name.split('.')[-1].lower()` is `jpg`, `jpeg` or
`png`. -/
def extOk (img_name : Str) : Bool :=
  let e := ((splitOnChar '.' img_name).getLastD []).map Char.toLower
  e == "jpg".toList || e == "jpeg".toList || e == "png".toList

/-- Python `sorted` on strings: the canonical lexicographically ordered
permutation (code-point order). -/
def sortStrs (l : List Str) : List Str :=
  List.insertionSort (· ≤ ·) l

/-- Position of the first occurrence of `a` in `l` (the index a Python dict
built from an enumerated duplicate-free list associates to a key). -/
def idxOf (a : Str) : List Str → Nat
  | [] => 0
  | x :: xs => if x = a then 0 else idxOf a xs + 1

/-- `train_person_ids` (source line 73): the sorted set of `person_id`
values of the `train`-role rows. -/
def train_person_ids (df : List OrgRecord) : List Str :=
  sortStrs ((df.filter (fun r => r.mode == Mode.train)).map (fun r => r.person_id)).dedup

/-- One pass of the assignment loop of `__add_person_index` (source lines
78-80) on one row: rows whose `person_id` equals the dictionary key get
that key's index, regardless of their `mode`. -/
def indexRowStep (row : Row) (p : Nat × Str) : Row :=
  if row.person_id = p.2 then { row with person_index := (p.1 : Int) } else row

/-- `__add_person_index` (source lines 71-82): initialise `person_index`
to `-999` on every row, then for each `(person_id, index)` pair of the
train dictionary overwrite the index on every row with that
`person_id`. -/
def add_person_index (df : List OrgRecord) : List Row :=
  let dic := (train_person_ids df).enum
  let init : List Row := df.map (fun r => { toOrgRecord := r, person_index := -999 })
  dic.foldl (fun rows p => rows.map (fun row => indexRowStep row p)) init

/-- True when a CSV field needs quoting under pandas' minimal quoting. -/
def needsQuote (f : Str) : Bool :=
  f.any (fun ch => ch == ',' || ch == '"' || ch == '\n' || ch == '\r')

/-- A field that `to_csv` writes verbatim (no comma, quote, newline or
carriage return). -/
def csvSafe (f : Str) : Prop := needsQuote f = false

instance (f : Str) : Decidable (csvSafe f) := by
  unfold csvSafe; infer_instance

/-- Serialisation of one CSV field with pandas' minimal quoting. -/
def csvField (f : Str) : Str :=
  if needsQuote f then '"' :: (f.flatMap (fun ch => if ch = '"' then ['"', '"'] else [ch])) ++ ['"'] else f

/-- A whole CSV document: every row joined by commas, every line terminated
by a newline. -/
def csvDoc (rows : List (List Str)) : Str :=
  unlinesNl (rows.map (fun r => joinComma (r.map csvField)))

/-- Decimal rendering of the `person_index` column value. -/
def intStr (i : Int) : Str := (toString i).toList

/-- The fixed column list of `__save_dataframe` (source line 86). -/
def base_cols : List Str :=
  ["person_id".toList, "camera_id".toList, "sequence_id".toList, "frame_no".toList,
   "dpm_bbox_no".toList, "mode".toList, "image_name".toList, "image_path".toList]

/-- Columns of a train annotation file: `['person_index'] + cols` (source
lines 87-88). -/
def train_cols : List Str := "person_index".toList :: base_cols

/-- The cell values of one row of a train annotation file, in the column
order of `train_cols`. -/
def trainFieldsOf (r : Row) : List Str :=
  [intStr r.person_index, r.person_id, r.camera_id, r.sequence_id, r.frame_no,
   r.dpm_bbox_no, modeStr r.mode, r.image_name, r.image_path]

/-- The cell values of one row of a test (query+gallery) annotation file,
in the column order of `base_cols`. -/
def testFieldsOf (r : OrgRecord) : List Str :=
  [r.person_id, r.camera_id, r.sequence_id, r.frame_no,
   r.dpm_bbox_no, modeStr r.mode, r.image_name, r.image_path]

/-- `__save_dataframe(df, path, 'train')` (source lines 85-92): the bytes
written to the annotation file for a train store. -/
def save_dataframe_train (df : List Row) : Str :=
  csvDoc (train_cols :: df.map trainFieldsOf)

/-- `__save_dataframe(df, path, 'test')`: the bytes written for the
query+gallery store (no `person_index` column). -/
def save_dataframe_test (df : List OrgRecord) : Str :=
  csvDoc (base_cols :: df.map testFieldsOf)

/-- Physical lines of a CSV document, with blank lines skipped as
`pd.read_csv` does. -/
def splitLines (s : Str) : List Str :=
  (splitOnChar '\n' s).filter (fun l => !l.isEmpty)

/-- `pd.read_csv` at cell granularity: the header row followed by the data
rows, every line split on commas. -/
def read_csv_all (s : Str) : List (List Str) :=
  (splitLines s).map (splitOnChar ',')

/-- `pd.read_csv(anno_path)` followed by `df_all[df_all['mode']==mode]`
(source lines 97-98 and 127-128): the data rows whose cell under the
`mode` header column equals the requested role string, in file order. -/
def load_filter (s : Str) (m : Str) : List (List Str) :=
  match read_csv_all s with
  | [] => []
  | header :: rows =>
    let c := idxOf ("mode".toList) header
    rows.filter (fun row => row.getD c [] == m)

/-- `make_train_anno` (source lines 18-31) as a function of the directory
listing of `bounding_box_train/`: sort the accepted file names, organise
them as train records, attach person indices and serialise.  `none` models
the run aborting on a malformed file name. -/
def make_train_anno (data_root_dir : Str) (listing : List Str) : Option Str :=
  let train_dir := data_root_dir ++ "bounding_box_train/".toList
  let train_img_names := sortStrs (listing.filter extOk)
  match org_data train_dir train_img_names Mode.train with
  | none => none
  | some train_list => some (save_dataframe_train (add_person_index train_list))

/-- `make_qng_anno` (source lines 34-50) as a function of the listings of
`bounding_box_test/` and `query/`: gallery records then query records, no
person indices, serialised without the `person_index` column. -/
def make_qng_anno (data_root_dir : Str) (gallery_listing query_listing : List Str) : Option Str :=
  let gallery_dir := data_root_dir ++ "bounding_box_test/".toList
  let query_dir := data_root_dir ++ "query/".toList
  let gallery_img_names := sortStrs (gallery_listing.filter extOk)
  let query_img_names := sortStrs (query_listing.filter extOk)
  match org_data gallery_dir gallery_img_names Mode.gallery,
        org_data query_dir query_img_names Mode.query with
  | some gallery_list, some query_list => some (save_dataframe_test (gallery_list ++ query_list))
  | _, _ => none

/-- Errors of `__getitem__`: a position without a row (`KeyError`) and a
missing image file (failed `assert os.path.exists`, the
`PreconditionFailure` of the specification). -/
inductive GetErr where
  | keyError
  | preconditionFailure
deriving DecidableEq, Repr

/-- `Market1501Train.__getitem__` (source lines 101-119) over an abstract
filesystem `fs` and decoder+transform pipeline `dec`: look up the row at
`idx`, assert its image file exists, decode, and return the decoded image
with the row's `person_index`. -/
def trainGetItem {Img : Type} (fs : Str → Bool) (dec : Str → Img)
    (df : List Row) (idx : Nat) : Except GetErr (Img × Int) :=
  match df.get? idx with
  | none => Except.error GetErr.keyError
  | some row =>
    if fs row.image_path then Except.ok (dec row.image_path, row.person_index)
    else Except.error GetErr.preconditionFailure

/-- `Market1501Test.__getitem__` (source lines 131-149): as the train
lookup, but returning `(image, person_id, image_path)`. -/
def testGetItem {Img : Type} (fs : Str → Bool) (dec : Str → Img)
    (df : List OrgRecord) (idx : Nat) : Except GetErr (Img × Str × Str) :=
  match df.get? idx with
  | none => Except.error GetErr.keyError
  | some row =>
    if fs row.image_path then Except.ok (dec row.image_path, row.person_id, row.image_path)
    else Except.error GetErr.preconditionFailure

/-- The state of a `Market1501Train` object: the role-filtered data frame
kept in `self.df`. -/
structure Market1501Train where
  df : List Row
deriving DecidableEq, Repr

/-- The state of a `Market1501Test` object. -/
structure Market1501Test where
  df : List OrgRecord
deriving DecidableEq, Repr

/-- `Market1501Train.__init__` from already-loaded typed rows: keep the
rows whose `mode` equals the requested role, in file order. -/
def market1501TrainInit (df_all : List Row) (mode : Mode) : Market1501Train :=
  { df := df_all.filter (fun r => r.mode == mode) }

/-- `Market1501Test.__init__` from already-loaded typed rows. -/
def market1501TestInit (df_all : List OrgRecord) (mode : Mode) : Market1501Test :=
  { df := df_all.filter (fun r => r.mode == mode) }

/-- `Market1501Train.__len__` (source lines 121-122):
`len(set(self.df['image_path'].values.tolist()))`. -/
def Market1501Train.size (self : Market1501Train) : Nat :=
  ((self.df.map (fun r => r.image_path)).toFinset).card

/-- `Market1501Test.__len__` (source lines 151-152). -/
def Market1501Test.size (self : Market1501Test) : Nat :=
  ((self.df.map (fun r => r.image_path)).toFinset).card

/-- `Market1501Train.__getitem__` as a state transformer: the method reads
`self.df` (through a local copy) and assigns no attribute, so the
post-state is the pre-state. -/
def Market1501Train.getItemM {Img : Type} (self : Market1501Train)
    (fs : Str → Bool) (dec : Str → Img) (idx : Nat) :
    (Except GetErr (Img × Int)) × Market1501Train :=
  let df := self.df
  (trainGetItem fs dec df idx, self)

/-- `Market1501Test.__getitem__` as a state transformer. -/
def Market1501Test.getItemM {Img : Type} (self : Market1501Test)
    (fs : Str → Bool) (dec : Str → Img) (idx : Nat) :
    (Except GetErr (Img × Str × Str)) × Market1501Test :=
  let df := self.df
  (testGetItem fs dec df idx, self)

/-- Train-role rows of an indexed store (what the bijection claim ranges
over). -/
def trainOutRows (df : List OrgRecord) : List Row :=
  (add_person_index df).filter (fun r => r.mode == Mode.train)

/-- Number of distinct training identities of a record set. -/
def distinctTrainCount (df : List OrgRecord) : Nat :=
  ((df.filter (fun r => r.mode == Mode.train)).map (fun r => r.person_id)).toFinset.card

/-- The three example file names of the specification. -/
def exampleNames : List Str :=
  ["0002_c1s1_000451_03.jpg".toList, "0002_c1s1_000551_04.jpg".toList,
   "0007_c2s1_000011_01.jpg".toList]

/-- The train records the example file names organise into. -/
def exampleTrainRows : List OrgRecord :=
  (org_data [] exampleNames Mode.train).getD []

/-- A train record with identity `0002`, used to build overlap data. -/
def overlapTrainRec : OrgRecord :=
  { image_name := "0002_c1s1_000451_03.jpg".toList
    image_path := "0002_c1s1_000451_03.jpg".toList
    person_id := "0002".toList
    camera_id := "c1".toList
    sequence_id := "s1".toList
    frame_no := "000451".toList
    dpm_bbox_no := "03".toList
    mode := Mode.train }

/-- A gallery record whose identity coincides with the training identity
`0002`. -/
def overlapGalleryRec : OrgRecord :=
  { image_name := "0002_c3s2_000100_01.jpg".toList
    image_path := "0002_c3s2_000100_01.jpg".toList
    person_id := "0002".toList
    camera_id := "c3".toList
    sequence_id := "s2".toList
    frame_no := "000100".toList
    dpm_bbox_no := "01".toList
    mode := Mode.gallery }

/-- A record set with one train row and one gallery row sharing identity
`0002`. -/
def overlapDf : List OrgRecord := [overlapTrainRec, overlapGalleryRec]

/-- Two train rows sharing one `image_path` (exhibits the length quirk). -/
def dupPathRows : List Row :=
  [{ toOrgRecord := overlapTrainRec, person_index := 0 },
   { toOrgRecord := { overlapTrainRec with frame_no := "000452".toList }, person_index := 0 }]

/-! ### Basic lemmas about splitting, joining, sorting and indexing -/

theorem splitOnChar_ne_nil (c : Char) (s : Str) : splitOnChar c s ≠ [] := by
  induction s with
  | nil => simp [splitOnChar]
  | cons x xs ih =>
    unfold splitOnChar
    cases h : splitOnChar c xs with
    | nil => exact absurd h ih
    | cons t ts => by_cases hx : x = c <;> simp [hx]

theorem splitOnChar_no_sep {c : Char} {s : Str} (h : c ∉ s) : splitOnChar c s = [s] := by
  induction s with
  | nil => rfl
  | cons x xs ih =>
    have hx : x ≠ c := fun hxc => h (hxc ▸ List.mem_cons_self x xs)
    have hxs : c ∉ xs := fun hc => h (List.mem_cons_of_mem _ hc)
    unfold splitOnChar
    rw [ih hxs]
    simp [hx]

theorem splitOnChar_cons (c x : Char) (xs : Str) :
    splitOnChar c (x :: xs)
      = match splitOnChar c xs with
        | [] => [[]]
        | t :: ts => if x = c then [] :: t :: ts else (x :: t) :: ts := rfl

theorem splitOnChar_append {c : Char} {a : Str} (b : Str) (h : c ∉ a) :
    splitOnChar c (a ++ c :: b) = a :: splitOnChar c b := by
  induction a with
  | nil =>
    simp only [List.nil_append]
    rw [splitOnChar_cons]
    cases hb : splitOnChar c b with
    | nil => exact absurd hb (splitOnChar_ne_nil c b)
    | cons t ts => simp
  | cons x xs ih =>
    have hx : x ≠ c := fun hxc => h (hxc ▸ List.mem_cons_self x xs)
    have hxs : c ∉ xs := fun hc => h (List.mem_cons_of_mem _ hc)
    simp only [List.cons_append]
    rw [splitOnChar_cons, ih hxs]
    simp [hx]

theorem joinComma_ne_nil {r : List Str} (h : 2 ≤ r.length) : joinComma r ≠ [] := by
  rcases r with _ | ⟨f, _ | ⟨g, rest⟩⟩
  · simp at h
  · simp at h
  · simp [joinComma]

theorem not_mem_joinComma {c : Char} {r : List Str} (hc : c ≠ ',')
    (h : ∀ f ∈ r, c ∉ f) : c ∉ joinComma r := by
  induction r with
  | nil => simp [joinComma]
  | cons f rest ih =>
    cases rest with
    | nil => simpa [joinComma] using h f (by simp)
    | cons g rest' =>
      have hrest := ih (fun f' hf' => h f' (List.mem_cons_of_mem _ hf'))
      simp only [joinComma]
      intro hmem
      rcases List.mem_append.mp hmem with h1 | h2
      · exact h f (by simp) h1
      · rcases List.mem_cons.mp h2 with h3 | h4
        · exact hc h3
        · exact hrest h4

theorem splitOnChar_joinComma (f : Str) (rest : List Str)
    (h : ∀ x ∈ f :: rest, ',' ∉ x) :
    splitOnChar ',' (joinComma (f :: rest)) = f :: rest := by
  induction rest generalizing f with
  | nil => simpa [joinComma] using splitOnChar_no_sep (h f (by simp))
  | cons g rest' ih =>
    simp only [joinComma]
    rw [splitOnChar_append _ (h f (by simp))]
    rw [ih g (fun x hx => h x (List.mem_cons_of_mem _ hx))]

theorem splitOnChar_unlinesNl (lines : List Str) (h : ∀ l ∈ lines, '\n' ∉ l) :
    splitOnChar '\n' (unlinesNl lines) = lines ++ [[]] := by
  induction lines with
  | nil => rfl
  | cons l rest ih =>
    simp only [unlinesNl, List.foldr_cons]
    rw [splitOnChar_append _ (h l (by simp))]
    rw [show (rest.foldr (fun l acc => l ++ '\n' :: acc) [] : Str) = unlinesNl rest from rfl]
    rw [ih (fun x hx => h x (List.mem_cons_of_mem _ hx))]
    simp

theorem csvSafe_not_mem {f : Str} (h : csvSafe f) :
    ',' ∉ f ∧ '"' ∉ f ∧ '\n' ∉ f ∧ '\r' ∉ f := by
  unfold csvSafe needsQuote at h
  rw [List.any_eq_false] at h
  refine ⟨fun hm => ?_, fun hm => ?_, fun hm => ?_, fun hm => ?_⟩ <;>
    · have := h _ hm; simp at this

theorem csvField_safe {f : Str} (h : csvSafe f) : csvField f = f := by
  unfold csvField
  rw [show needsQuote f = false from h]
  simp

theorem sortStrs_sorted (l : List Str) : List.Sorted (· ≤ ·) (sortStrs l) :=
  List.sorted_insertionSort _ l

theorem sortStrs_perm (l : List Str) : (sortStrs l).Perm l :=
  List.perm_insertionSort _ l

theorem sortStrs_eq_of_perm {l1 l2 : List Str} (h : l1.Perm l2) : sortStrs l1 = sortStrs l2 :=
  List.eq_of_perm_of_sorted ((sortStrs_perm l1).trans (h.trans (sortStrs_perm l2).symm))
    (sortStrs_sorted l1) (sortStrs_sorted l2)

theorem get?_idxOf {a : Str} {l : List Str} (h : a ∈ l) : l.get? (idxOf a l) = some a := by
  induction l with
  | nil => simp at h
  | cons x xs ih =>
    by_cases hx : x = a
    · simp [idxOf, hx]
    · have h2 : a ∈ xs := by
        rcases List.mem_cons.mp h with h1 | h2
        · exact absurd h1.symm hx
        · exact h2
      simp only [idxOf, if_neg hx]
      rw [List.get?_cons_succ]
      exact ih h2

theorem idxOf_lt_length {a : Str} {l : List Str} (h : a ∈ l) : idxOf a l < l.length := by
  have := get?_idxOf h
  by_contra hge
  rw [List.get?_eq_none.mpr (by omega)] at this
  exact Option.noConfusion this

theorem idxOf_inj {a b : Str} {l : List Str} (ha : a ∈ l) (hb : b ∈ l)
    (h : idxOf a l = idxOf b l) : a = b := by
  have h1 := get?_idxOf ha
  have h2 := get?_idxOf hb
  rw [h, h2] at h1
  exact (Option.some_inj.mp h1).symm

theorem idxOf_get? {l : List Str} (hn : l.Nodup) {i : Nat} {a : Str}
    (h : l.get? i = some a) : idxOf a l = i := by
  induction l generalizing i with
  | nil => simp at h
  | cons x xs ih =>
    cases i with
    | zero =>
      simp only [List.get?_cons_zero, Option.some_inj] at h
      simp [idxOf, h]
    | succ n =>
      simp only [List.get?_cons_succ] at h
      have hax : x ≠ a := by
        intro hxa
        subst hxa
        exact (List.nodup_cons.mp hn).1 (List.get?_mem h)
      simp [idxOf, hax, ih (List.nodup_cons.mp hn).2 h]

theorem idxOf_lt_of_sorted {l : List Str} (hs : List.Sorted (· ≤ ·) l)
    {a b : Str} (ha : a ∈ l) (hb : b ∈ l) (hab : a < b) : idxOf a l < idxOf b l := by
  by_contra hle
  push_neg at hle
  rcases Nat.lt_or_ge (idxOf b l) (idxOf a l) with hlt | hge
  · have hia := idxOf_lt_length ha
    have hib := idxOf_lt_length hb
    have hrel := hs.rel_get_of_lt (a := ⟨idxOf b l, hib⟩) (b := ⟨idxOf a l, hia⟩)
      (Fin.mk_lt_mk.mpr hlt)
    have hgb : l.get ⟨idxOf b l, hib⟩ = b := by
      have := get?_idxOf hb
      rwa [List.get?_eq_get hib, Option.some_inj] at this
    have hga : l.get ⟨idxOf a l, hia⟩ = a := by
      have := get?_idxOf ha
      rwa [List.get?_eq_get hia, Option.some_inj] at this
    rw [hgb, hga] at hrel
    exact absurd hab (not_lt.mpr hrel)
  · have heq : idxOf a l = idxOf b l := Nat.le_antisymm hge hle
    exact absurd (idxOf_inj ha hb heq) (ne_of_lt hab)

/-! ### Characterisation of `__add_person_index` -/

theorem train_person_ids_nodup (df : List OrgRecord) : (train_person_ids df).Nodup :=
  (sortStrs_perm _).nodup_iff.mpr (List.nodup_dedup _)

theorem train_person_ids_sorted (df : List OrgRecord) :
    List.Sorted (· ≤ ·) (train_person_ids df) :=
  sortStrs_sorted _

theorem mem_train_person_ids {df : List OrgRecord} {r : OrgRecord}
    (hr : r ∈ df.filter (fun r => r.mode == Mode.train)) :
    r.person_id ∈ train_person_ids df := by
  unfold train_person_ids
  rw [(sortStrs_perm _).mem_iff, List.mem_dedup]
  exact List.mem_map_of_mem _ hr

theorem train_person_ids_mem {df : List OrgRecord} {x : Str}
    (hx : x ∈ train_person_ids df) :
    ∃ r ∈ df.filter (fun r => r.mode == Mode.train), r.person_id = x := by
  unfold train_person_ids at hx
  rw [(sortStrs_perm _).mem_iff, List.mem_dedup] at hx
  exact List.mem_map.mp hx

theorem train_person_ids_length (df : List OrgRecord) :
    (train_person_ids df).length = distinctTrainCount df := by
  unfold train_person_ids distinctTrainCount
  rw [(sortStrs_perm _).length_eq, ← List.card_toFinset]

theorem foldl_indexRowStep_map (ps : List (Nat × Str)) (rows : List Row) :
    ps.foldl (fun rs p => rs.map (fun row => indexRowStep row p)) rows
      = rows.map (fun row => ps.foldl indexRowStep row) := by
  induction ps generalizing rows with
  | nil => simp
  | cons p ps ih =>
    simp only [List.foldl_cons]
    rw [ih, List.map_map]
    rfl

theorem foldl_indexRowStep_enumFrom (ids : List Str) (hn : ids.Nodup) :
    ∀ (n : Nat) (row : Row),
      (List.enumFrom n ids).foldl indexRowStep row
        = if row.person_id ∈ ids
          then { row with person_index := ((n + idxOf row.person_id ids : Nat) : Int) }
          else row := by
  induction ids with
  | nil => intro n row; simp
  | cons x xs ih =>
    intro n row
    rw [List.enumFrom_cons, List.foldl_cons]
    by_cases hx : row.person_id = x
    · have hxs : x ∉ xs := (List.nodup_cons.mp hn).1
      have hstep : indexRowStep row (n, x) = { row with person_index := (n : Int) } := by
        unfold indexRowStep
        rw [if_pos hx]
      rw [hstep, ih (List.nodup_cons.mp hn).2 (n + 1) _]
      rw [if_neg (show ¬({ row with person_index := (n : Int) } : Row).person_id ∈ xs from hx ▸ hxs)]
      rw [if_pos (show row.person_id ∈ x :: xs from hx ▸ List.mem_cons_self x xs)]
      have hidx : idxOf row.person_id (x :: xs) = 0 := by
        simp [idxOf, hx]
      rw [hidx]
      simp
    · have hstep : indexRowStep row (n, x) = row := by
        unfold indexRowStep
        rw [if_neg hx]
      rw [hstep, ih (List.nodup_cons.mp hn).2 (n + 1) row]
      have hxr : ¬x = row.person_id := fun h => hx h.symm
      have hidx : idxOf row.person_id (x :: xs) = idxOf row.person_id xs + 1 := by
        simp only [idxOf, if_neg hxr]
      by_cases hmem : row.person_id ∈ xs
      · rw [if_pos hmem, if_pos (List.mem_cons_of_mem _ hmem), hidx]
        have harith : (n + (idxOf row.person_id xs + 1) : Nat) = (n + 1 + idxOf row.person_id xs : Nat) := by
          omega
        rw [harith]
      · rw [if_neg hmem, if_neg (by simp only [List.mem_cons, not_or]; exact ⟨hx, hmem⟩)]

theorem add_person_index_eq (df : List OrgRecord) :
    add_person_index df
      = df.map (fun r =>
          if r.person_id ∈ train_person_ids df
          then { toOrgRecord := r,
                 person_index := ((idxOf r.person_id (train_person_ids df) : Nat) : Int) }
          else { toOrgRecord := r, person_index := -999 }) := by
  unfold add_person_index
  rw [List.enum_eq_enumFrom, foldl_indexRowStep_map, List.map_map]
  apply List.map_congr_left
  intro r _
  have hnodup := train_person_ids_nodup df
  simp only [Function.comp_apply]
  rw [foldl_indexRowStep_enumFrom _ hnodup 0 _]
  have hpid : ({ toOrgRecord := r, person_index := -999 } : Row).person_id = r.person_id := rfl
  by_cases hmem : r.person_id ∈ train_person_ids df
  · rw [if_pos (hpid ▸ hmem), if_pos hmem]
    simp
  · rw [if_neg (hpid ▸ hmem), if_neg hmem]

theorem trainOutRows_eq (df : List OrgRecord) :
    trainOutRows df
      = (df.filter (fun r => r.mode == Mode.train)).map (fun r =>
          { toOrgRecord := r,
            person_index := ((idxOf r.person_id (train_person_ids df) : Nat) : Int) }) := by
  unfold trainOutRows
  rw [add_person_index_eq, List.filter_map]
  have hpred : ∀ r ∈ df,
      ((fun r' : Row => r'.mode == Mode.train) ∘
        (fun r : OrgRecord =>
          if r.person_id ∈ train_person_ids df
          then { toOrgRecord := r,
                 person_index := ((idxOf r.person_id (train_person_ids df) : Nat) : Int) }
          else ({ toOrgRecord := r, person_index := -999 } : Row))) r
        = (r.mode == Mode.train) := by
    intro r _
    simp only [Function.comp_apply]
    split <;> rfl
  rw [List.filter_congr hpred]
  apply List.map_congr_left
  intro r hr
  rw [if_pos (mem_train_person_ids hr)]

/-! ### CSV serialisation and reloading -/

theorem read_csv_all_csvDoc (rows : List (List Str))
    (hlen : ∀ r ∈ rows, 2 ≤ r.length)
    (hsafe : ∀ r ∈ rows, ∀ f ∈ r, csvSafe f) :
    read_csv_all (csvDoc rows) = rows := by
  have hmapfix : rows.map (fun r => joinComma (r.map csvField)) = rows.map joinComma := by
    apply List.map_congr_left
    intro r hr
    congr 1
    calc r.map csvField = r.map id := List.map_congr_left (fun f hf => csvField_safe (hsafe r hr f hf))
    _ = r := List.map_id r
  have hlines : ∀ l ∈ rows.map joinComma, '\n' ∉ l := by
    intro l hl
    rcases List.mem_map.mp hl with ⟨r, hr, rfl⟩
    exact not_mem_joinComma (by decide) (fun f hf => (csvSafe_not_mem (hsafe r hr f hf)).2.2.1)
  unfold read_csv_all splitLines csvDoc
  rw [hmapfix, splitOnChar_unlinesNl _ hlines, List.filter_append]
  have hfix1 : (rows.map joinComma).filter (fun l => !l.isEmpty) = rows.map joinComma := by
    rw [List.filter_eq_self]
    intro l hl
    rcases List.mem_map.mp hl with ⟨r, hr, rfl⟩
    have := joinComma_ne_nil (hlen r hr)
    simp [List.isEmpty_iff, this]
  have hfix2 : ([([] : Str)]).filter (fun l => !l.isEmpty) = [] := rfl
  rw [hfix1, hfix2, List.append_nil, List.map_map]
  have : rows.map (splitOnChar ',' ∘ joinComma) = rows.map id := by
    apply List.map_congr_left
    intro r hr
    rcases r with _ | ⟨f, rest⟩
    · simpa using hlen _ hr
    · exact splitOnChar_joinComma f rest (fun x hx => (csvSafe_not_mem (hsafe _ hr x hx)).1)
  rw [this, List.map_id]

theorem modeStr_beq (a b : Mode) : (modeStr a == modeStr b) = (a == b) := by
  cases a <;> cases b <;> rfl

theorem read_csv_all_save_train (df : List Row)
    (h : ∀ r ∈ df, ∀ f ∈ trainFieldsOf r, csvSafe f) :
    read_csv_all (save_dataframe_train df) = train_cols :: df.map trainFieldsOf := by
  unfold save_dataframe_train
  apply read_csv_all_csvDoc
  · intro r hr
    rcases List.mem_cons.mp hr with h1 | h2
    · rw [h1]; decide
    · rcases List.mem_map.mp h2 with ⟨row, _, rfl⟩
      simp [trainFieldsOf]
  · intro r hr f hf
    rcases List.mem_cons.mp hr with h1 | h2
    · revert hf
      rw [h1]
      revert f
      decide
    · rcases List.mem_map.mp h2 with ⟨row, hrow, rfl⟩
      exact h row hrow f hf

theorem read_csv_all_save_test (df : List OrgRecord)
    (h : ∀ r ∈ df, ∀ f ∈ testFieldsOf r, csvSafe f) :
    read_csv_all (save_dataframe_test df) = base_cols :: df.map testFieldsOf := by
  unfold save_dataframe_test
  apply read_csv_all_csvDoc
  · intro r hr
    rcases List.mem_cons.mp hr with h1 | h2
    · rw [h1]; decide
    · rcases List.mem_map.mp h2 with ⟨row, _, rfl⟩
      simp [testFieldsOf]
  · intro r hr f hf
    rcases List.mem_cons.mp hr with h1 | h2
    · revert hf
      rw [h1]
      revert f
      decide
    · rcases List.mem_map.mp h2 with ⟨row, hrow, rfl⟩
      exact h row hrow f hf

/-! ### Small record projection lemmas -/

theorem mkRow_person_index (q : OrgRecord) (i : Int) :
    ({ toOrgRecord := q, person_index := i } : Row).person_index = i := rfl

theorem mkRow_person_id (q : OrgRecord) (i : Int) :
    ({ toOrgRecord := q, person_index := i } : Row).person_id = q.person_id := rfl

/-! ### Claim theorems -/

/-- Claim C3: for every filename with at least 4 underscore-delimited
tokens whose token 3 has the form `<detectionBox>.<ext>` with a dot-free
detection-box stem, the parser produces the record with `person_id` =
token 0, `camera_id` = first two characters of token 1, `sequence_id` =
remainder of token 1, `frame_no` = token 2, and `dpm_bbox_no` = token 3
with its extension stripped. -/
theorem org_one_wellformed (data_dir : Str) (m : Mode) (img_name t0 t1 t2 t3 : Str)
    (rest : List Str) (stem ext : Str)
    (hsplit : splitOnChar '_' img_name = t0 :: t1 :: t2 :: t3 :: rest)
    (ht3 : t3 = stem ++ '.' :: ext) (hstem : '.' ∉ stem) :
    org_one data_dir img_name m
      = some { image_name := img_name
               image_path := data_dir ++ img_name
               person_id := t0
               camera_id := t1.take 2
               sequence_id := t1.drop 2
               frame_no := t2
               dpm_bbox_no := stem
               mode := m } := by
  simp only [org_one, hsplit, List.getD_cons_zero, List.getD_cons_succ]
  rw [if_pos (by simp only [List.length_cons]; omega)]
  rw [ht3, splitOnChar_append ext hstem]
  rfl

theorem org_one_wellformed_witness :
    org_one [] ("0002_c1s1_000451_03.jpg".toList) Mode.train
      = some { image_name := "0002_c1s1_000451_03.jpg".toList
               image_path := "0002_c1s1_000451_03.jpg".toList
               person_id := "0002".toList
               camera_id := "c1".toList
               sequence_id := "s1".toList
               frame_no := "000451".toList
               dpm_bbox_no := "03".toList
               mode := Mode.train } :=
  org_one_wellformed [] Mode.train ("0002_c1s1_000451_03.jpg".toList)
    ("0002".toList) ("c1s1".toList) ("000451".toList) ("03.jpg".toList) []
    ("03".toList) ("jpg".toList) (by decide) (by decide) (by decide)

/-- Claim C2 counterexample: a filename whose token 1 has fewer than 2
characters does NOT make the parser fail; it still produces a record. -/
theorem org_one_short_token_counterexample :
    ((splitOnChar '_' ("0002_c_000451_03.jpg".toList)).getD 1 []).length < 2
    ∧ org_one [] ("0002_c_000451_03.jpg".toList) Mode.train ≠ none := by
  decide

/-- Claim C2 (amended): the parser fails exactly when fewer than 4
underscore-delimited tokens exist; when 4 tokens exist but token 1 has
fewer than 2 characters it succeeds, with `camera_id` equal to all of
token 1 and an empty `sequence_id`. -/
theorem org_one_failure_condition (data_dir : Str) (m : Mode) (img_name : Str) :
    (org_one data_dir img_name m = none ↔ (splitOnChar '_' img_name).length < 4)
    ∧ (∀ t0 t1 t2 t3 : Str, ∀ rest : List Str,
        splitOnChar '_' img_name = t0 :: t1 :: t2 :: t3 :: rest →
        t1.length < 2 →
        ∃ r : OrgRecord, org_one data_dir img_name m = some r
          ∧ r.camera_id = t1 ∧ r.sequence_id = []) := by
  constructor
  · simp only [org_one]
    split
    · rename_i h4
      constructor
      · intro heq
        exact absurd heq (by simp)
      · intro hlt
        exact absurd hlt (by omega)
    · rename_i h4
      constructor
      · intro _
        omega
      · intro _
        rfl
  · intro t0 t1 t2 t3 rest hsplit hlen
    refine ⟨{ image_name := img_name
              image_path := data_dir ++ img_name
              person_id := t0
              camera_id := t1.take 2
              sequence_id := t1.drop 2
              frame_no := t2
              dpm_bbox_no := (splitOnChar '.' t3).headD []
              mode := m }, ?_, ?_, ?_⟩
    · simp only [org_one, hsplit, List.getD_cons_zero, List.getD_cons_succ]
      rw [if_pos (by simp only [List.length_cons]; omega)]
    · exact List.take_of_length_le (by omega)
    · exact List.drop_eq_nil_of_le (by omega)

theorem org_one_failure_condition_witness :
    (org_one [] ("abc.jpg".toList) Mode.train = none)
    ∧ (∃ r : OrgRecord, org_one [] ("0002_c_000451_03.jpg".toList) Mode.train = some r
        ∧ r.camera_id = "c".toList ∧ r.sequence_id = []) :=
  ⟨(org_one_failure_condition [] Mode.train ("abc.jpg".toList)).1.mpr (by decide),
   (org_one_failure_condition [] Mode.train ("0002_c_000451_03.jpg".toList)).2
     ("0002".toList) ("c".toList) ("000451".toList) ("03.jpg".toList) [] (by decide) (by decide)⟩

/-- Claim C1: on the train-role rows of an indexed store, `person_index`
is a bijection from the distinct training identities onto `[0, K)` where
`K` is the number of distinct training identities, indices follow the
lexical order of `person_id`, and the three example filenames yield
indices 0, 0, 1. -/
theorem add_person_index_bijection (df : List OrgRecord) :
    (∀ r ∈ trainOutRows df,
        0 ≤ r.person_index ∧ r.person_index < (distinctTrainCount df : Int))
    ∧ (∀ r ∈ trainOutRows df, ∀ s ∈ trainOutRows df,
        (r.person_index = s.person_index ↔ r.person_id = s.person_id))
    ∧ (∀ i : Nat, i < distinctTrainCount df →
        ∃ r ∈ trainOutRows df, r.person_index = ((i : Nat) : Int))
    ∧ (∀ r ∈ trainOutRows df, ∀ s ∈ trainOutRows df,
        r.person_id < s.person_id → r.person_index < s.person_index)
    ∧ (add_person_index exampleTrainRows).map (fun r => r.person_index) = [0, 0, 1] := by
  have hmem : ∀ {r : Row}, r ∈ trainOutRows df ↔
      ∃ q ∈ df.filter (fun r => r.mode == Mode.train),
        ({ toOrgRecord := q,
           person_index := ((idxOf q.person_id (train_person_ids df) : Nat) : Int) } : Row) = r := by
    intro r
    rw [trainOutRows_eq]
    exact List.mem_map
  refine ⟨?_, ?_, ?_, ?_, by decide⟩
  · intro r hr
    rcases hmem.mp hr with ⟨q, hq, rfl⟩
    rw [mkRow_person_index]
    refine ⟨Int.natCast_nonneg _, ?_⟩
    have h1 := idxOf_lt_length (mem_train_person_ids hq)
    rw [train_person_ids_length] at h1
    exact_mod_cast h1
  · intro r hr s hs
    rcases hmem.mp hr with ⟨q1, hq1, rfl⟩
    rcases hmem.mp hs with ⟨q2, hq2, rfl⟩
    simp only [mkRow_person_index, mkRow_person_id]
    constructor
    · intro h
      exact idxOf_inj (mem_train_person_ids hq1) (mem_train_person_ids hq2) (by exact_mod_cast h)
    · intro h
      rw [h]
  · intro i hi
    have hi' : i < (train_person_ids df).length := by
      rw [train_person_ids_length]
      exact hi
    rcases train_person_ids_mem (List.get_mem (train_person_ids df) i hi') with ⟨q, hq, hqid⟩
    refine ⟨_, hmem.mpr ⟨q, hq, rfl⟩, ?_⟩
    rw [mkRow_person_index, hqid]
    have : idxOf ((train_person_ids df).get ⟨i, hi'⟩) (train_person_ids df) = i :=
      idxOf_get? (train_person_ids_nodup df) (List.get?_eq_get hi')
    rw [this]
  · intro r hr s hs hlt
    rcases hmem.mp hr with ⟨q1, hq1, rfl⟩
    rcases hmem.mp hs with ⟨q2, hq2, rfl⟩
    simp only [mkRow_person_id] at hlt
    simp only [mkRow_person_index]
    have := idxOf_lt_of_sorted (train_person_ids_sorted df)
      (mem_train_person_ids hq1) (mem_train_person_ids hq2) hlt
    exact_mod_cast this

theorem add_person_index_bijection_witness :
    ∃ r ∈ trainOutRows exampleTrainRows, r.person_index = ((0 : Nat) : Int) :=
  (add_person_index_bijection exampleTrainRows).2.2.1 0 (by decide)

/-- Claim C4 counterexample: in a store holding a train row and a gallery
row that share identity `0002`, the indexer assigns `person_index = 0` to
the gallery row as well, whereas indexing the gallery row alone leaves it
at the untouched sentinel `-999`; so query/gallery records whose identity
coincides with a training identity are NOT left unchanged. -/
theorem indexer_touches_overlapping_gallery :
    (overlapDf.map (fun r => r.mode) = [Mode.train, Mode.gallery])
    ∧ ((add_person_index overlapDf).map (fun r => r.person_index) = [0, 0])
    ∧ ((add_person_index [overlapGalleryRec]).map (fun r => r.person_index) = [-999]) := by
  decide

/-- Claim C4 (amended): the indexer preserves every parser-derived field
of every record and sets `person_index` on every row regardless of its
role: to the training identity's index whenever the row's `person_id` is a
training identity (so query/gallery rows with an overlapping identity also
receive that index), and to `-999` otherwise. -/
theorem add_person_index_characterization (df : List OrgRecord) (k : Nat) (r : OrgRecord)
    (h : df.get? k = some r) :
    ∃ r' : Row, (add_person_index df).get? k = some r'
      ∧ r'.toOrgRecord = r
      ∧ (r.person_id ∈ train_person_ids df →
          r'.person_index = ((idxOf r.person_id (train_person_ids df) : Nat) : Int))
      ∧ (r.person_id ∉ train_person_ids df → r'.person_index = -999) := by
  have hmap : (add_person_index df).get? k
      = some (if r.person_id ∈ train_person_ids df
              then { toOrgRecord := r,
                     person_index := ((idxOf r.person_id (train_person_ids df) : Nat) : Int) }
              else ({ toOrgRecord := r, person_index := -999 } : Row)) := by
    rw [add_person_index_eq, List.get?_map, h]
    rfl
  refine ⟨_, hmap, ?_, ?_, ?_⟩
  · split <;> rfl
  · intro hmemb
    rw [if_pos hmemb]
  · intro hmemb
    rw [if_neg hmemb]

theorem add_person_index_characterization_witness :
    ∃ r' : Row, (add_person_index overlapDf).get? 1 = some r'
      ∧ r'.toOrgRecord = overlapGalleryRec
      ∧ (overlapGalleryRec.person_id ∈ train_person_ids overlapDf →
          r'.person_index = ((idxOf overlapGalleryRec.person_id (train_person_ids overlapDf) : Nat) : Int))
      ∧ (overlapGalleryRec.person_id ∉ train_person_ids overlapDf → r'.person_index = -999) :=
  add_person_index_characterization overlapDf 1 overlapGalleryRec (by decide)

/-- Claim C5: the reported length of a partition view is the number of
distinct `image_path` values among its role-filtered rows — and, as the
final two conjuncts exhibit, not necessarily the number of rows. -/
theorem view_length_distinct_paths (rowsT : List Row) (rowsQ : List OrgRecord) (m : Mode) :
    (market1501TrainInit rowsT m).size
        = ((rowsT.filter (fun r => r.mode == m)).map (fun r => r.image_path)).dedup.length
    ∧ (market1501TestInit rowsQ m).size
        = ((rowsQ.filter (fun r => r.mode == m)).map (fun r => r.image_path)).dedup.length
    ∧ (market1501TrainInit dupPathRows Mode.train).size = 1
    ∧ dupPathRows.length = 2 :=
  ⟨List.card_toFinset _, List.card_toFinset _, by decide, rfl⟩

theorem load_filter_save_train (df : List Row) (m : Mode)
    (h : ∀ r ∈ df, ∀ f ∈ trainFieldsOf r, csvSafe f) :
    load_filter (save_dataframe_train df) (modeStr m)
      = (df.filter (fun r => r.mode == m)).map trainFieldsOf := by
  unfold load_filter
  rw [read_csv_all_save_train df h]
  show (df.map trainFieldsOf).filter
      (fun row => row.getD (idxOf ("mode".toList) train_cols) [] == modeStr m)
      = (df.filter (fun r => r.mode == m)).map trainFieldsOf
  rw [List.filter_map]
  have hpt : ∀ r ∈ df,
      ((fun row : List Str => row.getD (idxOf ("mode".toList) train_cols) [] == modeStr m)
        ∘ trainFieldsOf) r = (r.mode == m) := by
    intro r _
    show ((trainFieldsOf r).getD (idxOf ("mode".toList) train_cols) [] == modeStr m)
        = (r.mode == m)
    have hc : idxOf ("mode".toList) train_cols = 6 := by decide
    rw [hc]
    show (modeStr r.mode == modeStr m) = (r.mode == m)
    exact modeStr_beq r.mode m
  rw [List.filter_congr hpt]

theorem load_filter_save_test (df : List OrgRecord) (m : Mode)
    (h : ∀ r ∈ df, ∀ f ∈ testFieldsOf r, csvSafe f) :
    load_filter (save_dataframe_test df) (modeStr m)
      = (df.filter (fun r => r.mode == m)).map testFieldsOf := by
  unfold load_filter
  rw [read_csv_all_save_test df h]
  show (df.map testFieldsOf).filter
      (fun row => row.getD (idxOf ("mode".toList) base_cols) [] == modeStr m)
      = (df.filter (fun r => r.mode == m)).map testFieldsOf
  rw [List.filter_map]
  have hpt : ∀ r ∈ df,
      ((fun row : List Str => row.getD (idxOf ("mode".toList) base_cols) [] == modeStr m)
        ∘ testFieldsOf) r = (r.mode == m) := by
    intro r _
    show ((testFieldsOf r).getD (idxOf ("mode".toList) base_cols) [] == modeStr m)
        = (r.mode == m)
    have hc : idxOf ("mode".toList) base_cols = 5 := by decide
    rw [hc]
    show (modeStr r.mode == modeStr m) = (r.mode == m)
    exact modeStr_beq r.mode m
  rw [List.filter_congr hpt]

/-- Claim C6: for both store kinds, loading the persisted file and
filtering by a role returns exactly the rows whose `mode` equals that
role, with cell content equal to the persisted cells and in file order
(round trip on filtered row content, modulo the per-role column-presence
rule), for stores whose cell values are CSV-safe. -/
theorem load_persist_roundtrip (dfT : List Row) (dfQ : List OrgRecord) (m : Mode)
    (hT : ∀ r ∈ dfT, ∀ f ∈ trainFieldsOf r, csvSafe f)
    (hQ : ∀ r ∈ dfQ, ∀ f ∈ testFieldsOf r, csvSafe f) :
    load_filter (save_dataframe_train dfT) (modeStr m)
      = (dfT.filter (fun r => r.mode == m)).map trainFieldsOf
    ∧ load_filter (save_dataframe_test dfQ) (modeStr m)
      = (dfQ.filter (fun r => r.mode == m)).map testFieldsOf :=
  ⟨load_filter_save_train dfT m hT, load_filter_save_test dfQ m hQ⟩

theorem load_persist_roundtrip_witness :
    load_filter (save_dataframe_train dupPathRows) (modeStr Mode.train)
      = (dupPathRows.filter (fun r => r.mode == Mode.train)).map trainFieldsOf
    ∧ load_filter (save_dataframe_test overlapDf) (modeStr Mode.train)
      = (overlapDf.filter (fun r => r.mode == Mode.train)).map testFieldsOf :=
  load_persist_roundtrip dupPathRows overlapDf Mode.train (by decide) (by decide)

/-- Claim C7: the persisted table has the fixed column order
`[person_index, person_id, camera_id, sequence_id, frame_no, dpm_bbox_no,
mode, image_name, image_path]` for train stores (the specification's
`identity_index, identity_id, …, partition_role, …` under its renaming)
and the same order without `person_index` for test stores, written as
comma-separated text with a header row, one data row per record and no
trailing index column. -/
theorem persisted_schema_columns (dfT : List Row) (dfQ : List OrgRecord)
    (hT : ∀ r ∈ dfT, ∀ f ∈ trainFieldsOf r, csvSafe f)
    (hQ : ∀ r ∈ dfQ, ∀ f ∈ testFieldsOf r, csvSafe f) :
    read_csv_all (save_dataframe_train dfT) = train_cols :: dfT.map trainFieldsOf
    ∧ read_csv_all (save_dataframe_test dfQ) = base_cols :: dfQ.map testFieldsOf
    ∧ train_cols = ["person_index".toList, "person_id".toList, "camera_id".toList,
        "sequence_id".toList, "frame_no".toList, "dpm_bbox_no".toList, "mode".toList,
        "image_name".toList, "image_path".toList]
    ∧ (∀ r : Row, trainFieldsOf r
        = [intStr r.person_index, r.person_id, r.camera_id, r.sequence_id, r.frame_no,
           r.dpm_bbox_no, modeStr r.mode, r.image_name, r.image_path])
    ∧ (∀ r : OrgRecord, testFieldsOf r
        = [r.person_id, r.camera_id, r.sequence_id, r.frame_no, r.dpm_bbox_no,
           modeStr r.mode, r.image_name, r.image_path]) :=
  ⟨read_csv_all_save_train dfT hT, read_csv_all_save_test dfQ hQ, rfl,
   fun _ => rfl, fun _ => rfl⟩

theorem persisted_schema_columns_witness :
    read_csv_all (save_dataframe_train dupPathRows)
      = train_cols :: dupPathRows.map trainFieldsOf
    ∧ read_csv_all (save_dataframe_test overlapDf)
      = base_cols :: overlapDf.map testFieldsOf :=
  ⟨(persisted_schema_columns dupPathRows overlapDf (by decide) (by decide)).1,
   (persisted_schema_columns dupPathRows overlapDf (by decide) (by decide)).2.1⟩

/-- Claim C8: the build pipeline is deterministic — its persisted output
is a function of the directory contents alone, not of the enumeration
order `os.listdir` happens to return, for both the train and the
query+gallery annotation files. -/
theorem build_deterministic (root : Str) (l1 l2 g1 g2 q1 q2 : List Str)
    (hl : l1.Perm l2) (hg : g1.Perm g2) (hq : q1.Perm q2) :
    make_train_anno root l1 = make_train_anno root l2
    ∧ make_qng_anno root g1 q1 = make_qng_anno root g2 q2 := by
  constructor
  · unfold make_train_anno
    rw [sortStrs_eq_of_perm (hl.filter extOk)]
  · unfold make_qng_anno
    rw [sortStrs_eq_of_perm (hg.filter extOk), sortStrs_eq_of_perm (hq.filter extOk)]

theorem build_deterministic_witness :
    make_train_anno [] exampleNames = make_train_anno [] exampleNames.reverse
    ∧ make_qng_anno [] exampleNames [] = make_qng_anno [] exampleNames.reverse [] :=
  build_deterministic [] exampleNames exampleNames.reverse exampleNames exampleNames.reverse
    [] [] (by decide) (by decide) (by decide)

/-- Claim C9: resolving a position whose row's `image_path` does not exist
on the filesystem fails with the fatal `PreconditionFailure` — the lookup
returns that error, not a skipped or substituted record — for both the
train and the query/gallery views. -/
theorem getitem_missing_file_fatal {Img : Type} (fs : Str → Bool) (dec : Str → Img)
    (dfT : List Row) (dfQ : List OrgRecord) (i j : Nat) (r : Row) (q : OrgRecord)
    (hT : dfT.get? i = some r) (hfT : fs r.image_path = false)
    (hQ : dfQ.get? j = some q) (hfQ : fs q.image_path = false) :
    trainGetItem fs dec dfT i = Except.error GetErr.preconditionFailure
    ∧ testGetItem fs dec dfQ j = Except.error GetErr.preconditionFailure := by
  constructor
  · unfold trainGetItem
    rw [hT]
    simp [hfT]
  · unfold testGetItem
    rw [hQ]
    simp [hfQ]

theorem getitem_missing_file_fatal_witness :
    trainGetItem (fun _ => false) (fun _ => (0 : Nat)) dupPathRows 0
      = Except.error GetErr.preconditionFailure
    ∧ testGetItem (fun _ => false) (fun _ => (0 : Nat)) overlapDf 0
      = Except.error GetErr.preconditionFailure :=
  getitem_missing_file_fatal (fun _ => false) (fun _ => (0 : Nat)) dupPathRows overlapDf 0 0
    { toOrgRecord := overlapTrainRec, person_index := 0 } overlapTrainRec rfl rfl rfl rfl

/-- Claim C10: an item lookup (successful or failing) leaves a partition
view's state unchanged: the underlying filtered row table, the reported
length, and every subsequent lookup result are identical before and after,
for both the train and the query/gallery views. -/
theorem getitem_frame {Img : Type} (fs : Str → Bool) (dec : Str → Img)
    (vT : Market1501Train) (vQ : Market1501Test) (idx : Nat) :
    (vT.getItemM fs dec idx).2 = vT
    ∧ (vT.getItemM fs dec idx).2.size = vT.size
    ∧ (∀ j, trainGetItem fs dec (vT.getItemM fs dec idx).2.df j
        = trainGetItem fs dec vT.df j)
    ∧ (vQ.getItemM fs dec idx).2 = vQ
    ∧ (vQ.getItemM fs dec idx).2.size = vQ.size
    ∧ (∀ j, testGetItem fs dec (vQ.getItemM fs dec idx).2.df j
        = testGetItem fs dec vQ.df j) :=
  ⟨rfl, rfl, fun _ => rfl, rfl, rfl, fun _ => rfl⟩
